import Mathlib

/-!
Shallow embedding of the metaballs renderer (src/main.rs).

Modelling conventions:
* Rust `f64` values are modelled as real numbers (`ℝ`); `f64` square root and
  `powf` become `Real.sqrt` and `Real.rpow`.
* Rust `u32` pixel coordinates are modelled as `ℕ`; the wrapping cast
  `i64 as u32` is `(z % 2^32).toNat` and the saturating cast `f64 as u32`
  truncates toward zero and clamps to `[0, 2^32)`.
* `rand::random::<f64>()` draws are threaded explicitly as a stream
  `us : ℕ → ℝ` of values in `[0,1)`.
* Panics (assertion failure in `centered_random`, out-of-bounds
  `get_pixel_mut`, mismatched `copy_from_slice`) are modelled by `Option`:
  `none` is a fault.
* An `ImageBuffer` is a row-major `List Rgba`; `as_raw` flattens it to the
  byte buffer.
-/

namespace Metaballs

/-- Represents a point on an image or screen (`struct Point`, `u32` fields). -/
structure Point where
  x : ℕ
  y : ℕ
deriving DecidableEq, Repr

/-- Like Point but signed (`struct RelPoint`, `i64` fields). -/
structure RelPoint where
  x : ℤ
  y : ℤ
deriving DecidableEq, Repr

/-- Represents a metaball position and size (`struct Metaball`). -/
structure Metaball where
  location : Point
  size : ℝ

/-- Factors/exponents and positions for rendering a set of metaballs
(`struct MetaballData`). -/
structure MetaballData where
  goo : ℝ
  threshold : ℝ
  width : ℕ
  height : ℕ
  metaballs : List Metaball

/-- One RGBA8 pixel (`image::Rgba<u8>`). -/
structure Rgba where
  r : ℕ
  g : ℕ
  b : ℕ
  a : ℕ
deriving DecidableEq, Repr

/-- The pixel color to draw for being inside the shape (`ON_PIXEL`). -/
def ON_PIXEL : Rgba := ⟨255, 0, 0, 255⟩

/-- The background pixel (`OFF_PIXEL`). -/
def OFF_PIXEL : Rgba := ⟨0, 0, 0, 255⟩

/-- The blue pixel written by the cross overlay (`Rgba([0u8, 0, 255, 255])`). -/
def CROSS_PIXEL : Rgba := ⟨0, 0, 255, 255⟩

/-- The base metaball size for the provided generation function. -/
def BASE_METABALL_SIZE : ℝ := 90.0

/-- The minimum metaball count for the provided generation function. -/
def MIN_METABALL_COUNT : ℕ := 3

/-- Embeds `Point::distance`: Euclidean distance, promoting the `u32` coordinates to
`f64`; the squares are formed with `powf(2f64)`, i.e. `Real.rpow`. -/
noncomputable def Point.distance (self other : Point) : ℝ :=
  Real.sqrt ((((self.x : ℝ) - (other.x : ℝ)) ^ (2 : ℝ)) + (((self.y : ℝ) - (other.y : ℝ)) ^ (2 : ℝ)))

/-- The fold inside `naive_impl`'s `math_func` closure: sum of
`size / distance^goo` over the metaballs, accumulated left to right from `0`. -/
noncomputable def metaball_sum (d : MetaballData) (x y : ℕ) : ℝ :=
  d.metaballs.foldl
    (fun acc metaball =>
      acc + metaball.size / (Point.distance metaball.location ⟨x, y⟩ ^ d.goo))
    0

/-- Embeds `math_func` in `naive_impl`: is the pixel on? -/
def math_func (d : MetaballData) (x y : ℕ) : Prop :=
  metaball_sum d x y > d.threshold

open Classical in
/-- The per-pixel closure handed to `ImageBuffer::from_fn` in `naive_impl`. -/
noncomputable def pixel_fn (d : MetaballData) (x y : ℕ) : Rgba :=
  if math_func d x y then ON_PIXEL else OFF_PIXEL

/-- Embeds `naive_impl`: build the `width × height` image; storage is row-major, so
the pixel at `(x, y)` sits at index `y * width + x`. -/
noncomputable def naive_impl (width height : ℕ) (d : MetaballData) : List Rgba :=
  (List.range (width * height)).map (fun i => pixel_fn d (i % width) (i / width))

/-- The relative points to the center point to draw a cross (`CROSS`). -/
def CROSS : List RelPoint :=
  [⟨0, 0⟩, ⟨1, 0⟩, ⟨-1, 0⟩, ⟨0, 1⟩, ⟨0, -1⟩]

/-- Render options (`struct RenderOpts`). -/
structure RenderOpts where
  crosses : Bool

/-- Rust's wrapping cast `i64 as u32`: keep the low 32 bits. -/
def cast_i64_u32 (z : ℤ) : ℕ :=
  (z % 2 ^ 32).toNat

/-- Embeds `ImageBuffer::get_pixel_mut` followed by assignment: writes the pixel at
row-major index `y * width + x`, and panics (`none`) when `(x, y)` is outside
the raster bounds. -/
def put_pixel (width height : ℕ) (img : List Rgba) (x y : ℕ) (p : Rgba) :
    Option (List Rgba) :=
  if x < width ∧ y < height then some (img.set (y * width + x) p) else none

/-- The inner overlay loop of `render_metaballs`: for one ball, write the blue
pixel at `((pos.x as i64 + modifier.x) as u32, (pos.y as i64 + modifier.y) as u32)`
for each modifier of `CROSS`, in order. -/
def overlay_ball (width height : ℕ) (img : List Rgba) (ball : Metaball) :
    Option (List Rgba) :=
  CROSS.foldlM
    (fun im modifier =>
      put_pixel width height im
        (cast_i64_u32 ((ball.location.x : ℤ) + modifier.x))
        (cast_i64_u32 ((ball.location.y : ℤ) + modifier.y))
        CROSS_PIXEL)
    img

/-- The outer overlay loop of `render_metaballs`: all balls in source order. -/
def overlay_crosses (width height : ℕ) (img : List Rgba) (balls : List Metaball) :
    Option (List Rgba) :=
  balls.foldlM (overlay_ball width height) img

/-- Embeds `ImageBuffer::as_raw`: the flat row-major RGBA byte buffer of an image. -/
def as_raw (img : List Rgba) : List ℕ :=
  (img.map (fun p => [p.r, p.g, p.b, p.a])).flatten

/-- Embeds `render_metaballs`: rasterize at the hard-coded 256×256 size, overlay the
crosses when `opts.crosses` is set (faulting on an out-of-bounds marker pixel),
then `copy_from_slice` into the screen buffer, which panics (`none`) unless the
lengths agree. -/
noncomputable def render_metaballs (screenbuffer : List ℕ) (d : MetaballData)
    (opts : RenderOpts) : Option (List ℕ) :=
  let meta := naive_impl 256 256 d
  let overlaid := if opts.crosses then overlay_crosses 256 256 meta d.metaballs else some meta
  overlaid.bind
    (fun img =>
      if screenbuffer.length = (as_raw img).length then some (as_raw img) else none)

/-- The value `u * inner + inner / 2` returned by `centered_random` on draw `u`
when the assertion passes. -/
noncomputable def centered_random_val (inner u : ℝ) : ℝ :=
  u * inner + inner / 2

/-- Embeds `centered_random`: asserts `inner < 1.0 && inner > 0.0` (panic = `none`),
then returns `random * inner + inner / 2` for the uniform draw `u`. -/
noncomputable def centered_random (inner u : ℝ) : Option ℝ :=
  if inner < 1 ∧ 0 < inner then some (centered_random_val inner u) else none

/-- Rust's saturating cast `f64 as u32`: truncate toward zero and clamp into
`[0, 2^32)` (the NaN case is outside the real-number model). -/
noncomputable def cast_f64_u32 (v : ℝ) : ℕ :=
  min (2 ^ 32 - 1) (Int.toNat ⌊v⌋)

/-- Embeds `random_exponential_distribution`: `ln(1 - random) / (-factor)` on draw `u`. -/
noncomputable def random_exponential_distribution (factor u : ℝ) : ℝ :=
  Real.log (1 - u) / (-factor)

/-- Embeds `random_count_metaballs`: `random_exponential_distribution(0.5).floor() as u32
+ MIN_METABALL_COUNT`, on draw `u`. -/
noncomputable def random_count_metaballs (u : ℝ) : ℕ :=
  cast_f64_u32 ((⌊random_exponential_distribution 0.5 u⌋ : ℤ) : ℝ) + MIN_METABALL_COUNT

/-- One iteration of the loop in `MetaballData::from_random`: draw the size,
then the x coordinate, then the y coordinate (three successive draws), each via
`centered_random(0.5)`; coordinates use the saturating `f64 as u32` cast. -/
noncomputable def make_metaball (width height : ℕ) (u1 u2 u3 : ℝ) :
    Option Metaball := do
  let s ← centered_random 0.5 u1
  let cx ← centered_random 0.5 u2
  let cy ← centered_random 0.5 u3
  pure ⟨⟨cast_f64_u32 ((width : ℝ) * cx), cast_f64_u32 ((height : ℝ) * cy)⟩,
    s * BASE_METABALL_SIZE⟩

/-- The ball `make_metaball` produces, as a total function (the
`centered_random(0.5)` assertion always passes). -/
noncomputable def mk_ball (width height : ℕ) (u1 u2 u3 : ℝ) : Metaball :=
  ⟨⟨cast_f64_u32 ((width : ℝ) * centered_random_val 0.5 u2),
    cast_f64_u32 ((height : ℝ) * centered_random_val 0.5 u3)⟩,
    centered_random_val 0.5 u1 * BASE_METABALL_SIZE⟩

/-- Embeds `MetaballData::from_random`: draw the count from `us 0`, then three draws
per ball (`us (3*i+1)`, `us (3*i+2)`, `us (3*i+3)` for ball `i`), keeping the
given goo, threshold and dimensions. -/
noncomputable def from_random (goo threshold : ℝ) (width height : ℕ)
    (us : ℕ → ℝ) : Option MetaballData := do
  let count := random_count_metaballs (us 0)
  let metaballs ← (List.range count).mapM
    (fun i => make_metaball width height (us (3 * i + 1)) (us (3 * i + 2)) (us (3 * i + 3)))
  pure ⟨goo, threshold, width, height, metaballs⟩

/-- A control command that can be sent from one thread to another
(`enum ControlCommand`). -/
inductive ControlCommand where
  | Goo (v : ℝ)
  | Threshold (v : ℝ)

/-- The console diagnostics `control_stdin` can print for a line. -/
inductive Diagnostic where
  | unableToParse (rest : String)
  | unknownCommand
deriving DecidableEq

/-- Rust's `str::trim` on the character list of a line: strip whitespace from
both ends. -/
def trim_chars (cs : List Char) : List Char :=
  ((cs.dropWhile Char.isWhitespace).reverse.dropWhile Char.isWhitespace).reverse

/-- One iteration of the `control_stdin` loop on one input line, parameterized
by the standard library float parser `pf` (modelling `f64::from_str`): trims
the line, dispatches on its first character (`&line[1..]` is the rest of the
trimmed line, the selectors being one-byte characters), and returns the
commands sent on the channel together with the diagnostics printed. An
all-whitespace line is skipped silently (`continue`). -/
def control_line (pf : String → Option ℝ) (line : String) :
    List ControlCommand × List Diagnostic :=
  let trimmed := trim_chars line.data
  match trimmed.head? with
  | none => ([], [])
  | some c =>
    let rest := String.mk trimmed.tail
    if c = 'g' then
      match pf rest with
      | some val => ([ControlCommand.Goo val], [])
      | none => ([], [Diagnostic.unableToParse rest])
    else if c = 't' then
      match pf rest with
      | some val => ([ControlCommand.Threshold val], [])
      | none => ([], [Diagnostic.unableToParse rest])
    else
      ([], [Diagnostic.unknownCommand])

/-- The command handler in `main`'s event loop: assign `goo` or `threshold`. -/
def apply_command (c : ControlCommand) (d : MetaballData) : MetaballData :=
  match c with
  | ControlCommand.Goo goo => { d with goo := goo }
  | ControlCommand.Threshold threshold => { d with threshold := threshold }

/-- Driving `main`'s receive branch over a list of received commands: the
resulting state, and how many times `render_metaballs` was invoked (once per
received command). -/
def dispatch_commands (cmds : List ControlCommand) (d : MetaballData) :
    MetaballData × ℕ :=
  cmds.foldl (fun p c => (apply_command c p.1, p.2 + 1)) (d, 0)

/-- Stated from the spec, for comparison with the code's overlay: write the
five pixels of a plus-shaped marker (center + 4 cardinal neighbors) in opaque
blue at `(x, y)`, in the order of `CROSS`. -/
def spec_plus_marker (width x y : ℕ) (img : List Rgba) : List Rgba :=
  ((((img.set (y * width + x) CROSS_PIXEL).set
      (y * width + (x + 1)) CROSS_PIXEL).set
      (y * width + (x - 1)) CROSS_PIXEL).set
      ((y + 1) * width + x) CROSS_PIXEL).set
      ((y - 1) * width + x) CROSS_PIXEL

/-- Stated from the spec: overlay a plus marker at each source's location, for
every source, in source order. -/
def spec_show_centers (width : ℕ) (img : List Rgba) (balls : List Metaball) :
    List Rgba :=
  balls.foldl (fun im b => spec_plus_marker width b.location.x b.location.y im) img

/-- C4's claim, stated as written: every generated source's coordinates are
obtained by rounding `width * CenteredRandom(0.5)` (resp. height) to the
nearest integer. -/
noncomputable def round_location_claim : Prop :=
  ∀ (goo threshold : ℝ) (width height : ℕ) (us : ℕ → ℝ) (d : MetaballData),
    (∀ n, 0 ≤ us n ∧ us n < 1) →
    from_random goo threshold width height us = some d →
    ∀ (i : ℕ) (hi : i < d.metaballs.length),
      ((d.metaballs.get ⟨i, hi⟩).location.x : ℤ) =
          round ((width : ℝ) * centered_random_val 0.5 (us (3 * i + 2))) ∧
        ((d.metaballs.get ⟨i, hi⟩).location.y : ℤ) =
          round ((height : ℝ) * centered_random_val 0.5 (us (3 * i + 3)))

end Metaballs

namespace Metaballs

/-! ### Helper lemmas shared by several claims -/

/-- The `centered_random(0.5)` assertion always passes, so it returns the
centered value. -/
theorem centered_random_half (u : ℝ) :
    centered_random 0.5 u = some (centered_random_val 0.5 u) := by
  rw [centered_random, if_pos (by norm_num)]

/-- Bounds for `centered_random_val 0.5` on a uniform draw. -/
theorem centered_random_val_half_bounds (u : ℝ) (h0 : 0 ≤ u) (h1 : u < 1) :
    1 / 4 ≤ centered_random_val 0.5 u ∧ centered_random_val 0.5 u < 3 / 4 := by
  rw [centered_random_val]
  constructor
  · nlinarith
  · nlinarith

/-- Lemma: `make_metaball` never faults and produces `mk_ball`. -/
theorem make_metaball_eq (width height : ℕ) (u1 u2 u3 : ℝ) :
    make_metaball width height u1 u2 u3 = some (mk_ball width height u1 u2 u3) := by
  rw [make_metaball]
  simp [centered_random_half, mk_ball]

/-- Lemma: `mapM` of a function that never fails collapses to `map`. -/
theorem mapM_of_some {α β : Type} (g : α → β) (l : List α) :
    l.mapM (fun a => some (g a)) = some (l.map g) := by
  rw [← List.mapM'_eq_mapM]
  induction l with
  | nil => rfl
  | cons a l ih => simp [List.mapM', ih]

/-- Lemma: `from_random` never faults: it returns the field whose balls are
`mk_ball` applied to the successive draws. -/
theorem from_random_eq (goo threshold : ℝ) (width height : ℕ) (us : ℕ → ℝ) :
    from_random goo threshold width height us =
      some ⟨goo, threshold, width, height,
        (List.range (random_count_metaballs (us 0))).map
          (fun i => mk_ball width height (us (3 * i + 1)) (us (3 * i + 2)) (us (3 * i + 3)))⟩ := by
  rw [from_random]
  have h : (fun i => make_metaball width height (us (3 * i + 1)) (us (3 * i + 2)) (us (3 * i + 3)))
      = fun i => some (mk_ball width height (us (3 * i + 1)) (us (3 * i + 2)) (us (3 * i + 3))) := by
    funext i
    exact make_metaball_eq _ _ _ _ _
  rw [h, mapM_of_some]
  rfl

/-- The saturating `f64 as u32` cast is plain truncation below `2^32`. -/
theorem cast_f64_u32_of_lt (v : ℝ) (h : v < 2 ^ 32) :
    cast_f64_u32 v = (⌊v⌋).toNat := by
  rw [cast_f64_u32]
  have hf : ⌊v⌋ < 2 ^ 32 := by
    rw [Int.floor_lt]
    exact_mod_cast h
  exact min_eq_right (by omega)

/-- The wrapping `i64 as u32` cast is the identity on `[0, 2^32)`. -/
theorem cast_i64_u32_of_lt (z : ℤ) (h0 : 0 ≤ z) (h1 : z < 2 ^ 32) :
    cast_i64_u32 z = z.toNat := by
  rw [cast_i64_u32, Int.emod_eq_of_lt h0 h1]

/-- Lemma: `random_count_metaballs` on the draw `0` is exactly the minimum count. -/
theorem random_count_zero : random_count_metaballs 0 = 3 := by
  rw [random_count_metaballs, random_exponential_distribution]
  norm_num [cast_f64_u32, MIN_METABALL_COUNT]

/-- C1: for every pixel `(x, y)` of the raster, `naive_impl` stores at the
row-major index of `(x, y)` the ON pixel `(255,0,0,255)` exactly when the sum
over all sources of `size / distance^goo` exceeds the threshold, and the OFF
pixel `(0,0,0,255)` otherwise. The sum is stated spec-side as the sum of the
per-source terms, and related to the code's left fold. -/
theorem naive_impl_pixel_spec (d : MetaballData) (width height x y : ℕ)
    (hx : x < width) (hy : y < height) :
    (naive_impl width height d)[y * width + x]? =
      some (if (d.metaballs.map
            (fun s => s.size / (Point.distance s.location ⟨x, y⟩ ^ d.goo))).sum
              > d.threshold then ON_PIXEL else OFF_PIXEL) := by
  have hlt : y * width + x < width * height := by
    calc y * width + x < y * width + width := by omega
    _ = (y + 1) * width := by ring
    _ ≤ height * width := Nat.mul_le_mul_right width (by omega)
    _ = width * height := Nat.mul_comm _ _
  have hmod : (y * width + x) % width = x := by
    rw [Nat.add_comm, Nat.add_mul_mod_self_right, Nat.mod_eq_of_lt hx]
  have hdiv : (y * width + x) / width = y := by
    rw [Nat.add_comm, Nat.add_mul_div_right _ _ (by omega : 0 < width),
      Nat.div_eq_of_lt hx]
    omega
  have hsum : metaball_sum d x y =
      (d.metaballs.map
        (fun s => s.size / (Point.distance s.location ⟨x, y⟩ ^ d.goo))).sum := by
    rw [metaball_sum, List.sum_eq_foldl, List.foldl_map]
  rw [naive_impl, List.getElem?_map, List.getElem?_range hlt]
  simp only [Option.map_some', hmod, hdiv, pixel_fn, math_func, hsum]

open Classical in
/-- Witness for C1 at a concrete field: the empty field on a 1×1 raster. -/
theorem naive_impl_pixel_spec_witness :
    (naive_impl 1 1 ⟨2, 1 / 2, 1, 1, []⟩)[0 * 1 + 0]? =
      some (if ((MetaballData.mk 2 (1 / 2) 1 1 []).metaballs.map
          (fun s => s.size /
            (Point.distance s.location ⟨0, 0⟩ ^ (MetaballData.mk 2 (1 / 2) 1 1 []).goo))).sum
            > (MetaballData.mk 2 (1 / 2) 1 1 []).threshold then ON_PIXEL else OFF_PIXEL) :=
  naive_impl_pixel_spec ⟨2, 1 / 2, 1, 1, []⟩ 1 1 0 0 (by norm_num) (by norm_num)

/-- Writing one pixel preserves the image size. -/
theorem length_spec_plus_marker (width x y : ℕ) (img : List Rgba) :
    (spec_plus_marker width x y img).length = img.length := by
  simp [spec_plus_marker]

/-- The spec-side overlay preserves the image size. -/
theorem length_spec_show_centers (width : ℕ) (img : List Rgba) (balls : List Metaball) :
    (spec_show_centers width img balls).length = img.length := by
  rw [spec_show_centers]
  induction balls generalizing img with
  | nil => rfl
  | cons b balls ih => rw [List.foldl_cons, ih, length_spec_plus_marker]

/-- Lemma: `naive_impl` produces exactly `width * height` pixels. -/
theorem length_naive_impl (width height : ℕ) (d : MetaballData) :
    (naive_impl width height d).length = width * height := by
  simp [naive_impl]

/-- The raw byte buffer of an image has four bytes per pixel. -/
theorem length_as_raw (img : List Rgba) :
    (as_raw img).length = 4 * img.length := by
  rw [as_raw]
  induction img with
  | nil => rfl
  | cons p img ih =>
    simp only [List.map_cons, List.flatten_cons, List.length_append, ih, List.length_cons,
      List.length_nil]
    omega

/-- On a ball whose cross stays strictly inside the 256×256 raster, the
code's overlay loop (wrapping casts, bounds-checked writes) equals the
spec-side plus marker. -/
theorem overlay_ball_eq_spec (img : List Rgba) (b : Metaball)
    (hx1 : 1 ≤ b.location.x) (hx2 : b.location.x + 1 < 256)
    (hy1 : 1 ≤ b.location.y) (hy2 : b.location.y + 1 < 256) :
    overlay_ball 256 256 img b =
      some (spec_plus_marker 256 b.location.x b.location.y img) := by
  have e0 : cast_i64_u32 ((b.location.x : ℤ) + 0) = b.location.x := by
    rw [cast_i64_u32_of_lt _ (by omega) (by push_cast; omega)]
    omega
  have e1 : cast_i64_u32 ((b.location.x : ℤ) + 1) = b.location.x + 1 := by
    rw [cast_i64_u32_of_lt _ (by omega) (by push_cast; omega)]
    omega
  have e2 : cast_i64_u32 ((b.location.x : ℤ) + -1) = b.location.x - 1 := by
    rw [cast_i64_u32_of_lt _ (by omega) (by push_cast; omega)]
    omega
  have f0 : cast_i64_u32 ((b.location.y : ℤ) + 0) = b.location.y := by
    rw [cast_i64_u32_of_lt _ (by omega) (by push_cast; omega)]
    omega
  have f1 : cast_i64_u32 ((b.location.y : ℤ) + 1) = b.location.y + 1 := by
    rw [cast_i64_u32_of_lt _ (by omega) (by push_cast; omega)]
    omega
  have f2 : cast_i64_u32 ((b.location.y : ℤ) + -1) = b.location.y - 1 := by
    rw [cast_i64_u32_of_lt _ (by omega) (by push_cast; omega)]
    omega
  have c0 : b.location.x < 256 ∧ b.location.y < 256 := by omega
  have c1 : b.location.x + 1 < 256 ∧ b.location.y < 256 := by omega
  have c2 : b.location.x - 1 < 256 ∧ b.location.y < 256 := by omega
  have c3 : b.location.x < 256 ∧ b.location.y + 1 < 256 := by omega
  have c4 : b.location.x < 256 ∧ b.location.y - 1 < 256 := by omega
  rw [overlay_ball, CROSS]
  simp only [List.foldlM_cons, List.foldlM_nil, put_pixel, e0, e1, e2, f0, f1, f2]
  simp [c0, c1, c2, c3, c4, spec_plus_marker]

/-- On a ball list whose crosses stay strictly inside the raster, the code's
overlay equals the spec-side overlay, ball by ball in source order. -/
theorem overlay_crosses_eq_spec (balls : List Metaball) (img : List Rgba)
    (hb : ∀ b ∈ balls, 1 ≤ b.location.x ∧ b.location.x + 1 < 256 ∧
      1 ≤ b.location.y ∧ b.location.y + 1 < 256) :
    overlay_crosses 256 256 img balls = some (spec_show_centers 256 img balls) := by
  induction balls generalizing img with
  | nil => rfl
  | cons b balls ih =>
    have hb0 := hb b (by simp)
    rw [overlay_crosses, List.foldlM_cons,
      overlay_ball_eq_spec img b hb0.1 hb0.2.1 hb0.2.2.1 hb0.2.2.2]
    rw [spec_show_centers, List.foldl_cons]
    exact ih _ (fun b hbmem => hb b (by simp [hbmem]))

/-- With the crosses option on and all markers interior, `render_metaballs`
is the base pass followed by the spec-side overlay. -/
theorem render_crosses_eq_spec (d : MetaballData) (buf : List ℕ)
    (hb : ∀ b ∈ d.metaballs, 1 ≤ b.location.x ∧ b.location.x + 1 < 256 ∧
      1 ≤ b.location.y ∧ b.location.y + 1 < 256)
    (hlen : buf.length = 262144) :
    render_metaballs buf d ⟨true⟩ =
      some (as_raw (spec_show_centers 256 (naive_impl 256 256 d) d.metaballs)) := by
  rw [render_metaballs]
  simp only [if_true]
  rw [overlay_crosses_eq_spec d.metaballs (naive_impl 256 256 d) hb]
  rw [Option.some_bind]
  rw [if_pos]
  rw [length_as_raw, length_spec_show_centers, length_naive_impl, hlen]

/-- C2 (amended): when `crosses` is set, `render_metaballs` runs the base pass
and then, in source order, writes a 5-pixel blue plus marker at each source's
location — but marker pixels are written by unguarded indexing, so the render
only succeeds (and equals the spec-side overlay) when every marker pixel is in
bounds; an out-of-bounds marker pixel faults instead of being clamped or
skipped. -/
theorem render_overlay_amended (d : MetaballData) (buf : List ℕ)
    (hb : ∀ b ∈ d.metaballs, 1 ≤ b.location.x ∧ b.location.x + 1 < 256 ∧
      1 ≤ b.location.y ∧ b.location.y + 1 < 256)
    (hlen : buf.length = 262144) :
    render_metaballs buf d ⟨true⟩ =
      some (as_raw (spec_show_centers 256 (naive_impl 256 256 d) d.metaballs)) :=
  render_crosses_eq_spec d buf hb hlen

/-- Witness for C2 (amended) at a concrete interior source. -/
theorem render_overlay_amended_witness :
    render_metaballs (List.replicate 262144 0) ⟨2, 1 / 2, 256, 256, [⟨⟨100, 100⟩, 30⟩]⟩ ⟨true⟩ =
      some (as_raw (spec_show_centers 256
        (naive_impl 256 256 ⟨2, 1 / 2, 256, 256, [⟨⟨100, 100⟩, 30⟩]⟩)
        (MetaballData.mk 2 (1 / 2) 256 256 [⟨⟨100, 100⟩, 30⟩]).metaballs)) :=
  render_overlay_amended ⟨2, 1 / 2, 256, 256, [⟨⟨100, 100⟩, 30⟩]⟩ (List.replicate 262144 0)
    (by
      intro b hbm
      simp only [List.mem_singleton] at hbm
      subst hbm
      refine ⟨by norm_num, by norm_num, by norm_num, by norm_num⟩)
    (by rw [List.length_replicate])

/-- C2 counterexample: a source at `(0, 0)` makes the overlay index pixel
`(2^32 - 1, 0)` via the wrapping cast, which is out of bounds, so the render
faults instead of clamping or skipping the marker. -/
theorem render_overlay_counterexample :
    render_metaballs (List.replicate 262144 0) ⟨2, 1 / 2, 256, 256, [⟨⟨0, 0⟩, 30⟩]⟩ ⟨true⟩ =
      none := by
  rw [render_metaballs]
  simp only [if_true]
  rw [overlay_crosses, List.foldlM_cons, overlay_ball, CROSS]
  simp only [List.foldlM_cons, List.foldlM_nil, put_pixel, cast_i64_u32]
  norm_num

/-- C8: the rendered buffer is a function of the field and options only —
two renders from buffers of the same size agree byte for byte, and rendering
with the crosses overlay off always yields exactly the base rasterization,
with no residue from the previous buffer contents. -/
theorem render_deterministic (d : MetaballData) (opts : RenderOpts) (buf1 buf2 : List ℕ)
    (hlen : buf1.length = buf2.length) (hsz : buf1.length = 262144) :
    render_metaballs buf1 d opts = render_metaballs buf2 d opts ∧
      render_metaballs buf1 d ⟨false⟩ = some (as_raw (naive_impl 256 256 d)) := by
  constructor
  · rw [render_metaballs, render_metaballs, hlen]
  · rw [render_metaballs]
    simp only [Bool.false_eq_true, if_false]
    rw [Option.some_bind, if_pos]
    rw [length_as_raw, length_naive_impl, hsz]

/-- Witness for C8 at two concrete distinct prior buffers. -/
theorem render_deterministic_witness :
    (render_metaballs (List.replicate 262144 0) ⟨2, 1 / 2, 256, 256, []⟩ ⟨true⟩ =
        render_metaballs (List.replicate 262144 7) ⟨2, 1 / 2, 256, 256, []⟩ ⟨true⟩) ∧
      render_metaballs (List.replicate 262144 0) ⟨2, 1 / 2, 256, 256, []⟩ ⟨false⟩ =
        some (as_raw (naive_impl 256 256 ⟨2, 1 / 2, 256, 256, []⟩)) :=
  render_deterministic ⟨2, 1 / 2, 256, 256, []⟩ ⟨true⟩ _ _
    (by rw [List.length_replicate, List.length_replicate])
    (by rw [List.length_replicate])

/-- The saturating cast of `width * centered_random_val 0.5 u` never clamps
when `width` fits in 32 bits and `u` is a uniform draw. -/
theorem cast_width_crv (width : ℕ) (u : ℝ) (hu0 : 0 ≤ u) (hu1 : u < 1)
    (hw : width < 2 ^ 32) :
    cast_f64_u32 ((width : ℝ) * centered_random_val 0.5 u) =
      (⌊(width : ℝ) * centered_random_val 0.5 u⌋).toNat := by
  apply cast_f64_u32_of_lt
  have hcrv := centered_random_val_half_bounds u hu0 hu1
  have hwr : (width : ℝ) < 2 ^ 32 := by exact_mod_cast hw
  have haux : (width : ℝ) * centered_random_val 0.5 u ≤ (width : ℝ) * (3 / 4) :=
    mul_le_mul_of_nonneg_left (le_of_lt hcrv.2) (Nat.cast_nonneg width)
  have hwnn : (0 : ℝ) ≤ (width : ℝ) := Nat.cast_nonneg width
  linarith

/-- The concrete field generated from the all-zero draw stream. -/
theorem from_random_zero :
    from_random 1.6 0.5 256 256 (fun _ => 0) =
      some ⟨1.6, 0.5, 256, 256, (List.range 3).map (fun _ => mk_ball 256 256 0 0 0)⟩ := by
  rw [from_random_eq]
  norm_num [random_count_zero]

/-- C5: `centered_random` with `0 < inner < 1` always returns
`u * inner + inner / 2`, and that value lies in `[inner/2, inner/2 + inner]`;
with `inner ≤ 0` or `inner ≥ 1` the assertion fails and no value is
returned. -/
theorem centered_random_spec :
    (∀ inner u : ℝ, 0 < inner → inner < 1 → 0 ≤ u → u < 1 →
      centered_random inner u = some (u * inner + inner / 2) ∧
        inner / 2 ≤ u * inner + inner / 2 ∧
        u * inner + inner / 2 ≤ inner / 2 + inner) ∧
      ∀ inner u : ℝ, inner ≤ 0 ∨ 1 ≤ inner → centered_random inner u = none := by
  constructor
  · intro inner u h0 h1 hu0 hu1
    refine ⟨by rw [centered_random, if_pos ⟨h1, h0⟩]; rfl, by nlinarith, by nlinarith⟩
  · intro inner u h
    rw [centered_random, if_neg]
    rintro ⟨h1, h2⟩
    rcases h with h | h
    · linarith
    · linarith

/-- Witness for C5 at `inner = 1/2, u = 0` (valid) and `inner = 2` (invalid). -/
theorem centered_random_spec_witness :
    centered_random (1 / 2) 0 = some (0 * (1 / 2) + (1 / 2) / 2) ∧
      centered_random 2 0 = none :=
  ⟨(centered_random_spec.1 (1 / 2) 0 (by norm_num) (by norm_num) le_rfl (by norm_num)).1,
    centered_random_spec.2 2 0 (Or.inr (by norm_num))⟩

/-- C6: the number of generated sources is
`floor(ExponentialSample(0.5)) + MIN_METABALL_COUNT`, hence at least
`MIN_METABALL_COUNT = 3` (the hypothesis that the floor fits in 32 bits
reflects that `f64` logarithms never reach `2^32`, where the saturating cast
would clamp). -/
theorem from_random_count_spec (goo threshold : ℝ) (width height : ℕ) (us : ℕ → ℝ)
    (d : MetaballData) (hu0 : 0 ≤ us 0) (hu1 : us 0 < 1)
    (hfit : ⌊random_exponential_distribution 0.5 (us 0)⌋ < 2 ^ 32)
    (hd : from_random goo threshold width height us = some d) :
    (d.metaballs.length : ℤ) =
        ⌊random_exponential_distribution 0.5 (us 0)⌋ + (MIN_METABALL_COUNT : ℤ) ∧
      MIN_METABALL_COUNT ≤ d.metaballs.length := by
  rw [from_random_eq] at hd
  injection hd with hd
  subst hd
  have hlog : Real.log (1 - us 0) ≤ 0 :=
    Real.log_nonpos (by linarith) (by linarith)
  have hs : 0 ≤ random_exponential_distribution 0.5 (us 0) := by
    rw [random_exponential_distribution]
    exact div_nonneg_of_nonpos hlog (by norm_num)
  have hfl : (0 : ℤ) ≤ ⌊random_exponential_distribution 0.5 (us 0)⌋ :=
    Int.le_floor.mpr (by exact_mod_cast hs)
  simp only [List.length_map, List.length_range, random_count_metaballs, cast_f64_u32,
    Int.floor_intCast, MIN_METABALL_COUNT]
  omega

/-- Witness for C6 on the all-zero draw stream. -/
theorem from_random_count_spec_witness :
    ((MetaballData.mk 1.6 0.5 256 256
          ((List.range 3).map (fun _ => mk_ball 256 256 0 0 0))).metaballs.length : ℤ) =
        ⌊random_exponential_distribution 0.5 0⌋ + (MIN_METABALL_COUNT : ℤ) ∧
      MIN_METABALL_COUNT ≤
        (MetaballData.mk 1.6 0.5 256 256
          ((List.range 3).map (fun _ => mk_ball 256 256 0 0 0))).metaballs.length :=
  from_random_count_spec 1.6 0.5 256 256 (fun _ => 0) _ le_rfl (by norm_num)
    (by rw [random_exponential_distribution]; norm_num) from_random_zero

/-- C4 (amended): each generated source has
`size = CenteredRandom(0.5) * 90.0`, and its coordinates are obtained by the
truncating (not rounding) cast: `x = trunc(width * CenteredRandom(0.5))` and
`y = trunc(height * CenteredRandom(0.5))`. -/
theorem from_random_trunc (goo threshold : ℝ) (width height : ℕ) (us : ℕ → ℝ)
    (hus : ∀ n, 0 ≤ us n ∧ us n < 1) (hw : width < 2 ^ 32) (hh : height < 2 ^ 32) :
    ∃ d, from_random goo threshold width height us = some d ∧
      ∀ (i : ℕ) (hi : i < d.metaballs.length),
        (d.metaballs.get ⟨i, hi⟩).size =
            centered_random_val 0.5 (us (3 * i + 1)) * BASE_METABALL_SIZE ∧
          (d.metaballs.get ⟨i, hi⟩).location.x =
            (⌊(width : ℝ) * centered_random_val 0.5 (us (3 * i + 2))⌋).toNat ∧
          (d.metaballs.get ⟨i, hi⟩).location.y =
            (⌊(height : ℝ) * centered_random_val 0.5 (us (3 * i + 3))⌋).toNat := by
  refine ⟨_, from_random_eq goo threshold width height us, ?_⟩
  intro i hi
  have hi2 : i < (List.range (random_count_metaballs (us 0))).length := by
    simpa using hi
  have hget : ((List.range (random_count_metaballs (us 0))).map
      (fun i => mk_ball width height (us (3 * i + 1)) (us (3 * i + 2)) (us (3 * i + 3)))).get
        ⟨i, hi⟩ =
      mk_ball width height (us (3 * i + 1)) (us (3 * i + 2)) (us (3 * i + 3)) := by
    simp
  refine ⟨by rw [hget]; rfl, ?_, ?_⟩
  · rw [hget]
    exact cast_width_crv width (us (3 * i + 2)) (hus _).1 (hus _).2 hw
  · rw [hget]
    exact cast_width_crv height (us (3 * i + 3)) (hus _).1 (hus _).2 hh

/-- Witness for C4 (amended) on the all-zero draw stream. -/
theorem from_random_trunc_witness :
    ∃ d, from_random 1.6 0.5 256 256 (fun _ => 0) = some d ∧
      ∀ (i : ℕ) (hi : i < d.metaballs.length),
        (d.metaballs.get ⟨i, hi⟩).size =
            centered_random_val 0.5 0 * BASE_METABALL_SIZE ∧
          (d.metaballs.get ⟨i, hi⟩).location.x =
            (⌊(256 : ℝ) * centered_random_val 0.5 0⌋).toNat ∧
          (d.metaballs.get ⟨i, hi⟩).location.y =
            (⌊(256 : ℝ) * centered_random_val 0.5 0⌋).toNat :=
  from_random_trunc 1.6 0.5 256 256 (fun _ => 0)
    (fun _ => ⟨le_rfl, by norm_num⟩) (by norm_num) (by norm_num)

/-- C4 counterexample: the generated x coordinate is not obtained by rounding
to the nearest integer — on a draw stream where the first ball's x draw is
`1/200`, the code truncates `256 * 0.2525 = 64.64` to `64` while rounding
would give `65`. -/
theorem round_location_claim_false : ¬ round_location_claim := by
  intro hcl
  have hub : ∀ n : ℕ, 0 ≤ (if n = 2 then (1 : ℝ) / 200 else 0) ∧
      (if n = 2 then (1 : ℝ) / 200 else 0) < 1 := by
    intro n
    split
    · norm_num
    · norm_num
  have hd := from_random_eq 1.6 0.5 256 256 (fun n => if n = 2 then (1 : ℝ) / 200 else 0)
  have h0 := hcl 1.6 0.5 256 256 (fun n => if n = 2 then (1 : ℝ) / 200 else 0) _ hub hd
  have hlen : ((List.range (random_count_metaballs
      ((fun n : ℕ => if n = 2 then (1 : ℝ) / 200 else 0) 0))).map
      (fun i => mk_ball 256 256
        ((fun n : ℕ => if n = 2 then (1 : ℝ) / 200 else 0) (3 * i + 1))
        ((fun n : ℕ => if n = 2 then (1 : ℝ) / 200 else 0) (3 * i + 2))
        ((fun n : ℕ => if n = 2 then (1 : ℝ) / 200 else 0) (3 * i + 3)))).length = 3 := by
    simp [random_count_zero]
  have h1 := (h0 0 (by rw [hlen]; norm_num)).1
  have hget : ∀ (hx : 0 < ((List.range (random_count_metaballs
      ((fun n : ℕ => if n = 2 then (1 : ℝ) / 200 else 0) 0))).map
      (fun i => mk_ball 256 256
        ((fun n : ℕ => if n = 2 then (1 : ℝ) / 200 else 0) (3 * i + 1))
        ((fun n : ℕ => if n = 2 then (1 : ℝ) / 200 else 0) (3 * i + 2))
        ((fun n : ℕ => if n = 2 then (1 : ℝ) / 200 else 0) (3 * i + 3)))).length),
      ((List.range (random_count_metaballs
        ((fun n : ℕ => if n = 2 then (1 : ℝ) / 200 else 0) 0))).map
        (fun i => mk_ball 256 256
          ((fun n : ℕ => if n = 2 then (1 : ℝ) / 200 else 0) (3 * i + 1))
          ((fun n : ℕ => if n = 2 then (1 : ℝ) / 200 else 0) (3 * i + 2))
          ((fun n : ℕ => if n = 2 then (1 : ℝ) / 200 else 0) (3 * i + 3)))).get ⟨0, hx⟩ =
        mk_ball 256 256 0 (1 / 200) 0 := by
    intro hx
    simp
  rw [hget] at h1
  have hxval : (mk_ball 256 256 0 ((1 : ℝ) / 200) 0).location.x = 64 := by
    have hv : (((256 : ℕ) : ℝ)) * centered_random_val 0.5 (1 / 200) = 1616 / 25 := by
      rw [centered_random_val]
      norm_num
    have hcast := cast_width_crv 256 ((1 : ℝ) / 200) (by norm_num) (by norm_num) (by norm_num)
    have hfl : ⌊(1616 / 25 : ℝ)⌋ = 64 := by
      rw [Int.floor_eq_iff]
      constructor
      · norm_num
      · norm_num
    have hproj : (mk_ball 256 256 0 ((1 : ℝ) / 200) 0).location.x =
        cast_f64_u32 (((256 : ℕ) : ℝ) * centered_random_val 0.5 (1 / 200)) := rfl
    rw [hproj, hcast, hv, hfl]
    rfl
  have hround : round ((((256 : ℕ) : ℝ)) * centered_random_val 0.5
      ((fun n : ℕ => if n = 2 then (1 : ℝ) / 200 else 0) (3 * 0 + 2))) = 65 := by
    have hv : (((256 : ℕ) : ℝ)) * centered_random_val 0.5
        ((fun n : ℕ => if n = 2 then (1 : ℝ) / 200 else 0) (3 * 0 + 2)) = 1616 / 25 := by
      rw [centered_random_val]
      norm_num
    rw [hv, round_eq]
    have : ⌊(1616 / 25 : ℝ) + 1 / 2⌋ = 65 := by
      rw [Int.floor_eq_iff]
      constructor
      · norm_num
      · norm_num
    exact this
  rw [hxval, hround] at h1
  norm_num at h1

/-- C9: every generated source's size lies in `[22.5, 67.5)` and in
particular is strictly positive (the zero-size NaN case is unreachable for
generated fields). -/
theorem generated_sizes (goo threshold : ℝ) (width height : ℕ) (us : ℕ → ℝ)
    (d : MetaballData) (hus : ∀ n, 0 ≤ us n ∧ us n < 1)
    (hd : from_random goo threshold width height us = some d) :
    ∀ b ∈ d.metaballs, 45 / 2 ≤ b.size ∧ b.size < 135 / 2 ∧ 0 < b.size := by
  rw [from_random_eq] at hd
  injection hd with hd
  subst hd
  intro b hbm
  simp only [List.mem_map, List.mem_range] at hbm
  obtain ⟨i, hi, rfl⟩ := hbm
  have hcrv := centered_random_val_half_bounds (us (3 * i + 1)) (hus _).1 (hus _).2
  have hB : BASE_METABALL_SIZE = 90 := by norm_num [BASE_METABALL_SIZE]
  refine ⟨?_, ?_, ?_⟩ <;>
    · show _
      rw [mk_ball]
      simp only [hB]
      nlinarith [hcrv.1, hcrv.2]

/-- Witness for C9: the first ball of the all-zero-draw field. -/
theorem generated_sizes_witness :
    45 / 2 ≤ (mk_ball 256 256 0 0 0).size ∧ (mk_ball 256 256 0 0 0).size < 135 / 2 ∧
      0 < (mk_ball 256 256 0 0 0).size :=
  generated_sizes 1.6 0.5 256 256 (fun _ => 0) _ (fun _ => ⟨le_rfl, by norm_num⟩)
    from_random_zero (mk_ball 256 256 0 0 0) (List.mem_map.mpr ⟨0, by norm_num, rfl⟩)

/-- C10: with `width = height = 256`, every generated source's coordinates lie
in `[64, 191]`, so all five pixels of every overlay cross are in bounds and
`render_metaballs` with the crosses overlay cannot fault on a generated
field. -/
theorem generated_locations_interior (goo threshold : ℝ) (us : ℕ → ℝ)
    (d : MetaballData) (hus : ∀ n, 0 ≤ us n ∧ us n < 1)
    (hd : from_random goo threshold 256 256 us = some d) :
    (∀ b ∈ d.metaballs, 64 ≤ b.location.x ∧ b.location.x ≤ 191 ∧
        64 ≤ b.location.y ∧ b.location.y ≤ 191) ∧
      ∀ buf : List ℕ, buf.length = 262144 →
        (render_metaballs buf d ⟨true⟩).isSome = true := by
  have hcoord : ∀ u : ℝ, 0 ≤ u → u < 1 →
      64 ≤ (⌊(256 : ℝ) * centered_random_val 0.5 u⌋).toNat ∧
        (⌊(256 : ℝ) * centered_random_val 0.5 u⌋).toNat ≤ 191 := by
    intro u h0 h1
    have hcrv := centered_random_val_half_bounds u h0 h1
    have hv1 : (64 : ℝ) ≤ (256 : ℝ) * centered_random_val 0.5 u := by nlinarith
    have hv2 : (256 : ℝ) * centered_random_val 0.5 u < 192 := by nlinarith
    have hf1 : (64 : ℤ) ≤ ⌊(256 : ℝ) * centered_random_val 0.5 u⌋ :=
      Int.le_floor.mpr (by exact_mod_cast hv1)
    have hf2 : ⌊(256 : ℝ) * centered_random_val 0.5 u⌋ < 192 :=
      Int.floor_lt.mpr (by exact_mod_cast hv2)
    omega
  have hloc : ∀ b ∈ d.metaballs, 64 ≤ b.location.x ∧ b.location.x ≤ 191 ∧
      64 ≤ b.location.y ∧ b.location.y ≤ 191 := by
    rw [from_random_eq] at hd
    injection hd with hd
    subst hd
    intro b hbm
    simp only [List.mem_map, List.mem_range] at hbm
    obtain ⟨i, hi, rfl⟩ := hbm
    have hx := hcoord (us (3 * i + 2)) (hus _).1 (hus _).2
    have hy := hcoord (us (3 * i + 3)) (hus _).1 (hus _).2
    have hcx := cast_width_crv 256 (us (3 * i + 2)) (hus _).1 (hus _).2 (by norm_num)
    have hcy := cast_width_crv 256 (us (3 * i + 3)) (hus _).1 (hus _).2 (by norm_num)
    rw [mk_ball]
    simp only [hcx, hcy]
    exact ⟨hx.1, hx.2, hy.1, hy.2⟩
  refine ⟨hloc, ?_⟩
  intro buf hlen
  rw [render_crosses_eq_spec d buf
    (fun b hbm => by
      have h := hloc b hbm
      exact ⟨by omega, by omega, by omega, by omega⟩) hlen]
  rfl

/-- Witness for C10 on the all-zero-draw field. -/
theorem generated_locations_interior_witness :
    (∀ b ∈ (MetaballData.mk 1.6 0.5 256 256
        ((List.range 3).map (fun _ => mk_ball 256 256 0 0 0))).metaballs,
        64 ≤ b.location.x ∧ b.location.x ≤ 191 ∧
          64 ≤ b.location.y ∧ b.location.y ≤ 191) ∧
      ∀ buf : List ℕ, buf.length = 262144 →
        (render_metaballs buf (MetaballData.mk 1.6 0.5 256 256
          ((List.range 3).map (fun _ => mk_ball 256 256 0 0 0))) ⟨true⟩).isSome = true :=
  generated_locations_interior 1.6 0.5 (fun _ => 0) _
    (fun _ => ⟨le_rfl, by norm_num⟩) from_random_zero

/-- C7: on a control line whose first character is `'g'` and whose remainder
parses as a float, exactly one `Goo` command is emitted (and `'t'` gives
exactly one `Threshold` command); on a non-parsing remainder after `'g'`/`'t'`,
or any other first character, no command is emitted, the field is left
unchanged with no re-render, and a diagnostic is printed. -/
theorem control_line_spec (pf : String → Option ℝ) (line : String)
    (d : MetaballData) (c : Char) (hc : (trim_chars line.data).head? = some c) :
    (∀ v : ℝ, c = 'g' → pf (String.mk (trim_chars line.data).tail) = some v →
      control_line pf line = ([ControlCommand.Goo v], [])) ∧
      (∀ v : ℝ, c = 't' → pf (String.mk (trim_chars line.data).tail) = some v →
        control_line pf line = ([ControlCommand.Threshold v], [])) ∧
      ((c = 'g' ∨ c = 't') → pf (String.mk (trim_chars line.data).tail) = none →
        control_line pf line =
            ([], [Diagnostic.unableToParse (String.mk (trim_chars line.data).tail)]) ∧
          dispatch_commands (control_line pf line).1 d = (d, 0)) ∧
      (c ≠ 'g' → c ≠ 't' →
        control_line pf line = ([], [Diagnostic.unknownCommand]) ∧
          dispatch_commands (control_line pf line).1 d = (d, 0)) := by
  refine ⟨?_, ?_, ?_, ?_⟩
  · intro v hcg hpf
    subst hcg
    simp [control_line, hc, hpf]
  · intro v hct hpf
    subst hct
    simp [control_line, hc, hpf]
  · intro hcor hpf
    have hcl : control_line pf line =
        ([], [Diagnostic.unableToParse (String.mk (trim_chars line.data).tail)]) := by
      rcases hcor with hcg | hct
      · subst hcg
        simp [control_line, hc, hpf]
      · subst hct
        simp [control_line, hc, hpf]
    exact ⟨hcl, by rw [hcl]; rfl⟩
  · intro hng hnt
    have hcl : control_line pf line = ([], [Diagnostic.unknownCommand]) := by
      simp [control_line, hc, hng, hnt]
    exact ⟨hcl, by rw [hcl]; rfl⟩

/-- Witness for C7: the line `"t"` with no numeric remainder emits no command,
leaves the field unchanged and reports a parse diagnostic. -/
theorem control_line_spec_witness :
    control_line (fun _ => none) "t" =
        ([], [Diagnostic.unableToParse (String.mk (trim_chars "t".data).tail)]) ∧
      dispatch_commands (control_line (fun _ => none) "t").1 ⟨1.6, 0.5, 256, 256, []⟩ =
        (⟨1.6, 0.5, 256, 256, []⟩, 0) :=
  (control_line_spec (fun _ => none) "t" ⟨1.6, 0.5, 256, 256, []⟩ 't'
    (by decide)).2.2.1 (Or.inr rfl) rfl

end Metaballs
